import Mathlib

/-!
Verification of the retail offer ranking engine (Metro Romania personalized
offers recommender) against its natural-language specification.

The Python source is shallowly embedded: SQL result sets and pandas frames
become Lean lists of records, SQL/Python arithmetic over floats becomes exact
arithmetic over `ℚ` (and `ℝ` where a natural logarithm occurs), dates become
integer day numbers (the ISO-date / julian-day order embeds into `ℤ`).
Each definition carries a comment pointing at the source lines it embeds.
-/

namespace RetailOffer

/- ------------------------------------------------------------------ -/
/- Offer feature construction: src/features.py                         -/
/- ------------------------------------------------------------------ -/

/-- The closed set of discount mechanisms, `offers.offer_type`
(`OFFER_TYPE_DIST` in src/config.py lists exactly these six tags). -/
inductive OfferType
  | percentage
  | fixed_amount
  | buy_x_get_y
  | volume_bonus
  | bundle
  | free_gift
deriving DecidableEq, Repr

/-- The `CASE o.offer_type ... END AS discount_depth` expression of
`build_offer_features` (src/features.py lines 242-249).  `price` is the
joined product's `tier1_price`; SQLite scalar `MIN`/`MAX` become `min`/`max`. -/
def discount_depth (otype : OfferType) (discount_value price : ℚ) : ℚ :=
  match otype with
  | .percentage => discount_value / 100
  | .fixed_amount => min 1 (discount_value / max price (1/100))
  | .buy_x_get_y => 1/2
  | .volume_bonus => discount_value / 100
  | .bundle => 3/10
  | .free_gift => 1/5

/-- The `CASE o.offer_type ... END AS discount_depth` expression inside the
`offer_info` query of `build_interaction_features`
(src/features.py lines 353-360), written out separately because the source
repeats the SQL text there. -/
def interaction_discount_depth (otype : OfferType) (discount_value price : ℚ) : ℚ :=
  match otype with
  | .percentage => discount_value / 100
  | .fixed_amount => min 1 (discount_value / max price (1/100))
  | .buy_x_get_y => 1/2
  | .volume_bonus => discount_value / 100
  | .bundle => 3/10
  | .free_gift => 1/5

/-- `MAX(0, JULIANDAY(o.end_date) - JULIANDAY(:ref))` cast to an integer
(src/features.py line 260); dates are embedded as integer day numbers. -/
def days_until_expiry (end_date ref : ℤ) : ℤ :=
  max 0 (end_date - ref)

/-- One row of the `offers JOIN products` input to `build_offer_features`:
only the columns the offer-feature formulas read. -/
structure OfferRec where
  offer_id : ℕ
  offer_type : OfferType
  discount_value : ℚ
  tier1_price : ℚ
  margin : Option ℚ
  end_date : ℤ
deriving DecidableEq, Repr

/-- One row of the `offer_features` table (the columns named by the claims). -/
structure OfferFeatRow where
  offer_id : ℕ
  discount_depth : ℚ
  margin_impact : ℚ
  days_until_expiry : ℤ
deriving DecidableEq, Repr

/-- The per-offer part of `build_offer_features` (src/features.py lines
238-260): one `offer_features` row per `offers JOIN products` row, with
`margin_impact = tier1_price * COALESCE(margin, 0.15) * discount_depth`. -/
def build_offer_features (offers : List OfferRec) (ref : ℤ) : List OfferFeatRow :=
  offers.map fun o =>
    { offer_id := o.offer_id
      discount_depth := discount_depth o.offer_type o.discount_value o.tier1_price
      margin_impact := o.tier1_price * (o.margin.getD (15/100)) *
        discount_depth o.offer_type o.discount_value o.tier1_price
      days_until_expiry := days_until_expiry o.end_date ref }

/-- Per-offer-type precondition on `discount_value` under which the spec's
discount-depth bound holds (the percentage-like mechanisms divide the raw
value by 100, fixed-amount divides by the clamped price). -/
def discountValueInRange (otype : OfferType) (discount_value : ℚ) : Prop :=
  match otype with
  | .percentage => 0 ≤ discount_value ∧ discount_value ≤ 100
  | .volume_bonus => 0 ≤ discount_value ∧ discount_value ≤ 100
  | .fixed_amount => 0 ≤ discount_value
  | _ => True

instance (otype : OfferType) (v : ℚ) : Decidable (discountValueInRange otype v) := by
  unfold discountValueInRange
  cases otype <;> infer_instance

/- ------------------------------------------------------------------ -/
/- Candidate generation: src/candidates.py                             -/
/- ------------------------------------------------------------------ -/

/-- `CANDIDATE_POOL_SIZE` (src/config.py). -/
def CANDIDATE_POOL_SIZE : ℕ := 200

/-- `CANDIDATE_STRATEGY_LIMITS` (src/config.py). -/
def CANDIDATE_STRATEGY_LIMITS : String → ℕ
  | "category_affinity" => 60
  | "business_type_popular" => 40
  | "repeat_purchase" => 30
  | "high_margin" => 20
  | "tier_upgrade" => 20
  | "cross_sell" => 15
  | "own_brand_switch" => 15
  | _ => 0

/-- A customer row of the query at src/candidates.py lines 90-93; the store
id is kept as the string the generator compares (`str(cust["home_store_id"])`,
line 177). -/
structure Customer where
  customer_id : ℕ
  business_type : String
  business_subtype : String
  home_store_id : String
  loyalty_tier : String
deriving DecidableEq, Repr

/-- A row of the active-offers query (src/candidates.py lines 43-51):
`offers JOIN products`, with the raw comma-joined scope strings
(NULL = unrestricted) and the validity window used by the `WHERE` clause. -/
structure CandOffer where
  offer_id : ℕ
  product_id : ℕ
  store_scope : Option String
  business_type_scope : Option String
  business_subtype_scope : Option String
  loyalty_tier_scope : Option String
  category : String
  margin : ℚ
  tier1_price : ℚ
  is_own_brand : Bool
  start_date : ℤ
  end_date : ℤ
deriving DecidableEq, Repr

/-- A `candidate_pool` row. -/
structure CandRow where
  customer_id : ℕ
  offer_id : ℕ
  strategy : String
  run_date : ℤ
deriving DecidableEq, Repr

/-- `WHERE o.start_date <= :rd AND o.end_date >= :rd` (lines 50). -/
def activeOffers (offers : List CandOffer) (rd : ℤ) : List CandOffer :=
  offers.filter fun o => decide (o.start_date ≤ rd ∧ rd ≤ o.end_date)

/-- `set(ss.split(",")) if pd.notna(ss) and ss else None` (lines 151-160):
a NULL or empty scope string means unrestricted.  The comma split is written
over the character list (identical to Python's `split(",")` for the
single-character separator). -/
def scopeSet (s : Option String) : Option (List String) :=
  match s with
  | none => none
  | some str =>
    if str = "" then none
    else some ((str.toList.splitOn ',').map (fun cs => String.mk cs))

/-- First matching row for an offer id (the scope dicts of lines 147-160 are
keyed by `offer_id`; `.get` on a missing key yields None). -/
def offerById (offers : List CandOffer) (oid : ℕ) : Option CandOffer :=
  offers.find? (fun o => o.offer_id == oid)

/-- `offer_store_scope` dict (line 154). -/
def offer_store_scope (active : List CandOffer) (oid : ℕ) : Option (List String) :=
  (offerById active oid).bind (fun o => scopeSet o.store_scope)

/-- `offer_bt_scope` dict (line 156). -/
def offer_bt_scope (active : List CandOffer) (oid : ℕ) : Option (List String) :=
  (offerById active oid).bind (fun o => scopeSet o.business_type_scope)

/-- `offer_sub_scope` dict (line 158). -/
def offer_sub_scope (active : List CandOffer) (oid : ℕ) : Option (List String) :=
  (offerById active oid).bind (fun o => scopeSet o.business_subtype_scope)

/-- `offer_lt_scope` dict (line 160). -/
def offer_lt_scope (active : List CandOffer) (oid : ℕ) : Option (List String) :=
  (offerById active oid).bind (fun o => scopeSet o.loyalty_tier_scope)

/-- One scope check of `_is_eligible`: a None scope always passes, otherwise
the customer's value must be a member. -/
def scopePasses (scope : Option (List String)) (v : String) : Bool :=
  match scope with
  | none => true
  | some l => l.contains v

/-- `_is_eligible` (src/candidates.py lines 309-332): the conjunction of the
four scope checks, in source order. -/
def is_eligible (active : List CandOffer) (oid : ℕ) (cust : Customer) : Bool :=
  scopePasses (offer_bt_scope active oid) cust.business_type &&
  scopePasses (offer_sub_scope active oid) cust.business_subtype &&
  scopePasses (offer_lt_scope active oid) cust.loyalty_tier &&
  scopePasses (offer_store_scope active oid) cust.home_store_id

/-- The spec's four-dimension eligibility conjunction (spec §4.1): for each
of the store, business-type, business-subtype and loyalty-tier dimensions,
either the offer's scope set is null (unrestricted) or the customer's value
for that dimension is a member of the set. -/
def EligibleConj (active : List CandOffer) (cust : Customer) (oid : ℕ) : Prop :=
  (offer_store_scope active oid = none ∨
    ∃ l, offer_store_scope active oid = some l ∧ cust.home_store_id ∈ l) ∧
  (offer_bt_scope active oid = none ∨
    ∃ l, offer_bt_scope active oid = some l ∧ cust.business_type ∈ l) ∧
  (offer_sub_scope active oid = none ∨
    ∃ l, offer_sub_scope active oid = some l ∧ cust.business_subtype ∈ l) ∧
  (offer_lt_scope active oid = none ∨
    ∃ l, offer_lt_scope active oid = some l ∧ cust.loyalty_tier ∈ l)

/-- Insertion-ordered key set of a Python dict /defaultdict: first occurrence
order, duplicates dropped. -/
def firstDedup (l : List String) : List String :=
  l.foldl (fun acc c => if c ∈ acc then acc else acc ++ [c]) []

/-- The keys of `cat_to_offers` in insertion order (lines 60-62, iterated at
line 163 as `all_categories` and at line 191). -/
def all_categories (active : List CandOffer) : List String :=
  firstDedup (active.map (·.category))

/-- `cat_to_offers[cat]` (lines 60-62): active offer ids whose product has
the category, in table order. -/
def cat_to_offers (active : List CandOffer) (cat : String) : List ℕ :=
  (active.filter (fun o => o.category == cat)).map (·.offer_id)

/-- `product_to_offers[pid]` (lines 139-141). -/
def product_to_offers (active : List CandOffer) (pid : ℕ) : List ℕ :=
  (active.filter (fun o => o.product_id == pid)).map (·.offer_id)

/-- `own_brand_offers` (line 74). -/
def own_brand_offers (active : List CandOffer) : List ℕ :=
  (active.filter (·.is_own_brand)).map (·.offer_id)

/-- `effective_margin = tier1_price * margin` (lines 65-67). -/
def effective_margin (o : CandOffer) : ℚ :=
  o.tier1_price * o.margin

/-- Stable descending insertion by effective margin (ties keep the earlier
row first, matching `nlargest`). -/
def insertByMargin (x : CandOffer) : List CandOffer → List CandOffer
  | [] => [x]
  | y :: ys =>
    if effective_margin x < effective_margin y then y :: insertByMargin x ys
    else x :: y :: ys

/-- `high_margin_offers = active_offers.nlargest(limit, "effective_margin")`
(lines 68-71). -/
def high_margin_offers (active : List CandOffer) (limit : ℕ) : List ℕ :=
  ((active.foldr insertByMargin []).take limit).map (·.offer_id)

/-- `active_offer_set` (line 144); strategy 5 iterates it as a Python set,
whose order is an unspecified artifact — here, table order. -/
def active_offer_ids (active : List CandOffer) : List ℕ :=
  active.map (·.offer_id)

/-- The database as the candidate generator sees it.  `bt_pop`, `top_cats`,
`cust_products`, `cust_purchased_cats` and `tier3_ratio` are the query
results of src/candidates.py lines 76-136 (impression popularity per
business type sorted by count descending, JSON-decoded top-3 categories,
90-day purchased products/categories, `tier3_purchase_ratio`); the
candidate-selection claims hold for every valuation of them. -/
structure CandDb where
  offers : List CandOffer
  customers : List Customer
  bt_pop : String → List ℕ
  top_cats : ℕ → List String
  cust_products : ℕ → List ℕ
  cust_purchased_cats : ℕ → List String
  tier3_ratio : ℕ → Option ℚ
  candidate_pool : List CandRow

/-- The insertion-ordered dict `candidates` mapping offer id to the strategy
that claimed it (line 183). -/
abbrev CandAcc := List (ℕ × String)

/-- `oid in candidates`. -/
def claimed (acc : CandAcc) (oid : ℕ) : Bool :=
  acc.any (fun e => e.1 == oid)

/-- A strategy loop without a success counter (category affinity after its
`[:limit]` slice, lines 194-199; high margin, lines 233-238): claim every
new admissible offer in order. -/
def addAll (tag : String) (ok : ℕ → Bool) : List ℕ → CandAcc → CandAcc
  | [], acc => acc
  | o :: rest, acc =>
    if !claimed acc o && ok o then addAll tag ok rest (acc ++ [(o, tag)])
    else addAll tag ok rest acc

/-- A counted strategy loop (strategies 2, 3, 5, 6, 7): claim new admissible
offers until `budget` successes; nested loops sharing one counter are
embedded by flattening their iteration order. -/
def addUpTo (tag : String) (ok : ℕ → Bool) : ℕ → List ℕ → CandAcc → CandAcc
  | _, [], acc => acc
  | 0, _ :: _, acc => acc
  | budget + 1, o :: rest, acc =>
    if !claimed acc o && ok o then addUpTo tag ok budget rest (acc ++ [(o, tag)])
    else addUpTo tag ok (budget + 1) rest acc

/-- `cat_candidates` (lines 186-193): offers of the customer's top
categories, backfilled from all other categories when fewer than `limit`. -/
def cat_candidates (active : List CandOffer) (topCats : List String) (limit : ℕ) :
    List ℕ :=
  let primary := topCats.flatMap (cat_to_offers active)
  if primary.length < limit then
    primary ++
      ((all_categories active).filter (fun c => !topCats.contains c)).flatMap
        (cat_to_offers active)
  else primary

/-- The seven strategy passes for one customer in source order
(src/candidates.py lines 185-288), each as (strategy tag, step on the
`candidates` dict). -/
def strategySteps (db : CandDb) (rd : ℤ) (cust : Customer) :
    List (String × (CandAcc → CandAcc)) :=
  let active := activeOffers db.offers rd
  let elig := fun oid => is_eligible active oid cust
  [ ("category_affinity", addAll "category_affinity" elig
      ((cat_candidates active (db.top_cats cust.customer_id)
          (CANDIDATE_STRATEGY_LIMITS "category_affinity")).take
        (CANDIDATE_STRATEGY_LIMITS "category_affinity"))),
    ("business_type_popular", addUpTo "business_type_popular"
      (fun oid => (active_offer_ids active).contains oid && elig oid)
      (CANDIDATE_STRATEGY_LIMITS "business_type_popular")
      (db.bt_pop cust.business_type)),
    ("repeat_purchase", addUpTo "repeat_purchase" elig
      (CANDIDATE_STRATEGY_LIMITS "repeat_purchase")
      ((db.cust_products cust.customer_id).flatMap (product_to_offers active))),
    ("high_margin", addAll "high_margin" elig
      (high_margin_offers active (CANDIDATE_STRATEGY_LIMITS "high_margin"))),
    ("tier_upgrade", fun acc =>
      match db.tier3_ratio cust.customer_id with
      | some r =>
        if r < mkRat 3 10 then
          addUpTo "tier_upgrade" elig (CANDIDATE_STRATEGY_LIMITS "tier_upgrade")
            (active_offer_ids active) acc
        else acc
      | none => acc),
    ("cross_sell", addUpTo "cross_sell" elig
      (CANDIDATE_STRATEGY_LIMITS "cross_sell")
      (((all_categories active).filter
          (fun c => !(db.cust_purchased_cats cust.customer_id).contains c)).flatMap
        (cat_to_offers active))),
    ("own_brand_switch", addUpTo "own_brand_switch" elig
      (CANDIDATE_STRATEGY_LIMITS "own_brand_switch")
      (own_brand_offers active)) ]

/-- The candidate set of one customer: the strategy passes folded in order
over the empty dict, then `list(candidates.items())[:CANDIDATE_POOL_SIZE]`
(line 291). -/
def customer_candidates (db : CandDb) (rd : ℤ) (cust : Customer) : CandAcc :=
  ((strategySteps db rd cust).foldl (fun acc s => s.2 acc) []).take
    CANDIDATE_POOL_SIZE

/-- The rows `generate_candidate_pool` inserts for a run (lines 169-300;
batching customers 5,000 at a time only affects commit granularity, not the
inserted rows). -/
def insert_rows (db : CandDb) (rd : ℤ) : List CandRow :=
  db.customers.flatMap fun cust =>
    (customer_candidates db rd cust).map fun e =>
      { customer_id := cust.customer_id, offer_id := e.1, strategy := e.2,
        run_date := rd }

/-- `generate_candidate_pool` at the table level (lines 31-306): delete the
run date's prior rows (line 37), return after the delete when no offer is
active (lines 53-55), otherwise insert the generated rows. -/
def generate_candidate_pool (db : CandDb) (rd : ℤ) : CandDb :=
  let cleared := db.candidate_pool.filter (fun r => !(r.run_date == rd))
  if (activeOffers db.offers rd).isEmpty then
    { db with candidate_pool := cleared }
  else
    { db with candidate_pool := cleared ++ insert_rows db rd }

/-- The `candidate_pool` rows of one run date. -/
def poolRowsFor (db : CandDb) (rd : ℤ) : List CandRow :=
  db.candidate_pool.filter (fun r => r.run_date == rd)

/-- A concrete offers-join-products list used to evaluate the offer-feature
invariant. -/
def sampleOfferRecs : List OfferRec :=
  [{ offer_id := 1, offer_type := .percentage, discount_value := 25,
     tier1_price := 50, margin := some (mkRat 1 10), end_date := 12 },
   { offer_id := 2, offer_type := .fixed_amount, discount_value := 5,
     tier1_price := 20, margin := none, end_date := -3 }]

/-- A concrete offer used to evaluate the candidate-pool theorems. -/
def sampleOffer : CandOffer :=
  { offer_id := 1, product_id := 7, store_scope := none,
    business_type_scope := some "horeca,trader", business_subtype_scope := none,
    loyalty_tier_scope := none, category := "meat_poultry", margin := mkRat 1 10,
    tier1_price := 50, is_own_brand := true, start_date := 0, end_date := 30 }

/-- A concrete customer inside the sample offer's business-type scope. -/
def sampleCustomer : Customer :=
  { customer_id := 11, business_type := "horeca", business_subtype := "restaurant",
    home_store_id := "3", loyalty_tier := "plus" }

/-- A concrete customer outside the sample offer's business-type scope. -/
def sampleCustomer2 : Customer :=
  { customer_id := 12, business_type := "sco", business_subtype := "office",
    home_store_id := "4", loyalty_tier := "classic" }

/-- A small concrete database used to evaluate the candidate-pool theorems. -/
def sampleDb : CandDb :=
  { offers := [sampleOffer], customers := [sampleCustomer, sampleCustomer2],
    bt_pop := fun _ => [1], top_cats := fun _ => ["meat_poultry"],
    cust_products := fun _ => [7], cust_purchased_cats := fun _ => [],
    tier3_ratio := fun _ => some (mkRat 1 5), candidate_pool := [] }

/- ------------------------------------------------------------------ -/
/- Scoring and ranking: src/score_ranker.py                            -/
/- ------------------------------------------------------------------ -/

/-- `TOP_N_RECOMMENDATIONS` (src/config.py). -/
def TOP_N_RECOMMENDATIONS : ℕ := 10

/-- One row of the scored candidate frame after step 5 of `score_candidates`
(src/score_ranker.py lines 30-75): a candidate pair with the model score. -/
structure ScoredRow where
  customer_id : ℕ
  offer_id : ℕ
  score : ℚ
deriving DecidableEq, Repr

/-- One row written to the `recommendations` table (step 7). -/
structure RecRow where
  customer_id : ℕ
  offer_id : ℕ
  score : ℚ
  rank : ℕ
deriving DecidableEq, Repr

/-- Steps 1-5 of `score_candidates`: each candidate pair keeps its frame
position and receives `model.predict_proba(X)[:, 1]`; the deterministic
feature join and model are abstracted as a score function of the pair. -/
def scoredRows (cands : List (ℕ × ℕ)) (score : ℕ → ℕ → ℚ) : List ScoredRow :=
  cands.map fun p => { customer_id := p.1, offer_id := p.2, score := score p.1 p.2 }

/-- Row `j` beats row `i` under pandas
`groupby("customer_id")["score"].rank(ascending=False, method="first")`
(src/score_ranker.py lines 78-82): same customer, and either a strictly
higher score or an equal score at an earlier frame position. -/
def beats (rows : List ScoredRow) (j i : Fin rows.length) : Prop :=
  (rows.get j).customer_id = (rows.get i).customer_id ∧
    ((rows.get i).score < (rows.get j).score ∨
      ((rows.get j).score = (rows.get i).score ∧ (j : ℕ) < (i : ℕ)))

instance (rows : List ScoredRow) : DecidableRel (beats rows) := fun j i => by
  unfold beats; infer_instance

/-- The rank of a row: one plus the number of rows that beat it (the
"first" method assigns 1, 2, ... within each customer group in that order). -/
def rank (rows : List ScoredRow) (i : Fin rows.length) : ℕ :=
  (Finset.univ.filter (fun j => beats rows j i)).card + 1

/-- The frame positions of one customer's rows. -/
def custGroup (rows : List ScoredRow) (c : ℕ) : Finset (Fin rows.length) :=
  Finset.univ.filter (fun i => (rows.get i).customer_id = c)

/-- Steps 6-7 of `score_candidates` (src/score_ranker.py lines 77-91): keep
the rows with rank at most `TOP_N_RECOMMENDATIONS` in frame order; after the
run date's prior rows are deleted, these are exactly the `recommendations`
rows of the run date. -/
def score_candidates (cands : List (ℕ × ℕ)) (score : ℕ → ℕ → ℚ) : List RecRow :=
  let rows := scoredRows cands score
  ((List.finRange rows.length).filter
      (fun i => decide (rank rows i ≤ TOP_N_RECOMMENDATIONS))).map
    (fun i => { customer_id := (rows.get i).customer_id,
                offer_id := (rows.get i).offer_id,
                score := (rows.get i).score, rank := rank rows i })

/- ------------------------------------------------------------------ -/
/- Drift monitoring: src/drift.py                                      -/
/- ------------------------------------------------------------------ -/

/-- `PSI_WARN_THRESHOLD` (src/config.py). -/
def PSI_WARN_THRESHOLD : ℚ := 1/10

/-- `PSI_ALERT_THRESHOLD` (src/config.py). -/
def PSI_ALERT_THRESHOLD : ℚ := 1/4

/-- `DRIFT_FEATURES` (src/config.py). -/
def DRIFT_FEATURES : List String :=
  ["recency_days", "frequency", "monetary", "promo_affinity",
   "avg_basket_size", "avg_discount_depth", "tier2_purchase_ratio",
   "tier3_purchase_ratio"]

/-- The additive smoothing epsilon `1e-4` (src/drift.py line 52). -/
def PSI_EPS : ℚ := 1/10000

/-- `np.histogram(a, bins=n)` bin edges: `n + 1` equally spaced points from
the array minimum to the maximum (numpy widens a zero-width range to
`[v - 0.5, v + 0.5]`). -/
def binEdges (a : List ℚ) (n : ℕ) : List ℚ :=
  let lo := a.foldl min (a.headD 0)
  let hi := a.foldl max (a.headD 0)
  let lo' := if lo = hi then lo - 1/2 else lo
  let hi' := if lo = hi then hi + 1/2 else hi
  (List.range (n + 1)).map (fun i => lo' + (hi' - lo') * i / n)

/-- Elements of `a` in histogram bin `i` of `edges`: each bin is
`[e_i, e_{i+1})`, with the last bin closed on the right. -/
def histCount (a : List ℚ) (edges : List ℚ) (i : ℕ) : ℕ :=
  let lo := edges.getD i 0
  let hi := edges.getD (i + 1) 0
  if i + 2 == edges.length then
    (a.filter (fun x => decide (lo ≤ x) && decide (x ≤ hi))).length
  else
    (a.filter (fun x => decide (lo ≤ x) && decide (x < hi))).length

/-- `np.histogram(a, bins=edges)` counts, one per bin. -/
def histCounts (a : List ℚ) (edges : List ℚ) : List ℕ :=
  (List.range (edges.length - 1)).map (histCount a edges)

/-- `(counts + eps) / (counts.sum() + eps * n_bins)`
(src/drift.py lines 52-54). -/
def smoothPct (counts : List ℕ) (nbins : ℕ) : List ℚ :=
  counts.map (fun c =>
    ((c : ℚ) + PSI_EPS) / ((counts.sum : ℚ) + PSI_EPS * nbins))

/-- `np.sum((current_pct - baseline_pct) * np.log(current_pct /
baseline_pct))` (src/drift.py line 57); the float `np.log` is the real
natural logarithm. -/
noncomputable def psiSum (bpct cpct : List ℚ) : ℝ :=
  (List.zipWith
    (fun b c : ℚ => ((c : ℝ) - (b : ℝ)) * Real.log ((c : ℝ) / (b : ℝ)))
    bpct cpct).sum

/-- `compute_psi` (src/drift.py lines 23-58): zero on an empty input,
otherwise the smoothed-histogram PSI floored at 0; bin edges come from the
baseline, both histograms use those edges.  The Python default `n_bins` is
10, passed explicitly by the one caller. -/
noncomputable def compute_psi (baseline current : List ℚ) (nbins : ℕ) : ℝ :=
  if baseline.length = 0 ∨ current.length = 0 then 0
  else
    max 0 (psiSum
      (smoothPct (histCounts baseline (binEdges baseline nbins)) nbins)
      (smoothPct (histCounts current (binEdges baseline nbins)) nbins))

open Classical in
/-- The severity assignment of `check_drift` (src/drift.py lines 96-101). -/
noncomputable def psiSeverity (psi : ℝ) : String :=
  if (PSI_ALERT_THRESHOLD : ℝ) ≤ psi then "alert"
  else if (PSI_WARN_THRESHOLD : ℝ) ≤ psi then "warn"
  else "ok"

/-- `round(psi, 4)` (src/drift.py lines 105, 112).  Python rounds half to
even while `round` rounds half up; they agree except at exact half ties,
which no claim exercises. -/
noncomputable def round4 (x : ℝ) : ℝ :=
  (round (x * 10000) : ℤ) / 10000

/-- One `drift_log` / alert entry of `check_drift` (the run date column is
the constant argument and is omitted). -/
structure DriftResult where
  feature : String
  psi : ℝ
  severity : String

/-- The state `check_drift` reads: the `customer_features` table, one row as
a feature-name-to-nullable-value map, and the saved artifact's train date
when a trained model artifact exists (`_get_baseline_date`,
src/drift.py lines 148-158). -/
structure DriftDb where
  customer_features : List (String → Option ℚ)
  artifact_train_date : Option String

/-- `_load_feature_snapshot` (src/drift.py lines 161-172): None for a None
reference date or an empty table, otherwise the full current
`customer_features` table — the reference date's value is ignored. -/
def load_feature_snapshot (db : DriftDb) (ref : Option String) :
    Option (List (String → Option ℚ)) :=
  match ref with
  | none => none
  | some _ =>
    if db.customer_features.isEmpty then none else some db.customer_features

/-- A feature column of a snapshot after `.dropna()`. -/
def featureColumn (snap : List (String → Option ℚ)) (f : String) : List ℚ :=
  snap.filterMap (fun row => row f)

open Classical in
/-- `check_drift` (src/drift.py lines 61-128): load the baseline snapshot at
the artifact's train date and the current snapshot at the run date; when
either is missing return no alerts; otherwise compute the PSI per monitored
feature, log `(feature, round(psi,4), severity)` and return the non-ok
entries as alerts.  The `customer_features` schema contains every monitored
column, so the column-presence guard (line 88) always passes. -/
noncomputable def check_drift (db : DriftDb) (run_date : String) :
    List DriftResult × List DriftResult :=
  match load_feature_snapshot db db.artifact_train_date,
        load_feature_snapshot db (some run_date) with
  | some baseline, some current =>
    let results := DRIFT_FEATURES.map (fun f =>
      let psi := compute_psi (featureColumn baseline f)
        (featureColumn current f) 10
      { feature := f, psi := round4 psi, severity := psiSeverity psi })
    (results, results.filter (fun r => r.severity ≠ "ok"))
  | _, _ => ([], [])

/- ------------------------------------------------------------------ -/
/- Ranker training: src/train_ranker.py                                -/
/- ------------------------------------------------------------------ -/

/-- `REDEMPTION_WINDOW_DAYS` (src/config.py). -/
def REDEMPTION_WINDOW_DAYS : ℕ := 7

/-- `NEGATIVE_SAMPLE_RATIO` (src/config.py). -/
def NEGATIVE_SAMPLE_RATIO : ℕ := 4

/-- An `impressions` row (timestamps as julian-day rationals). -/
structure Impression where
  impression_id : ℕ
  customer_id : ℕ
  offer_id : ℕ
  shown_timestamp : ℚ
deriving DecidableEq, Repr

/-- A `redemptions` row. -/
structure Redemption where
  redemption_id : ℕ
  customer_id : ℕ
  offer_id : ℕ
  redeemed_timestamp : ℚ
deriving DecidableEq, Repr

/-- A labelled training row (exactly the `drop_duplicates` key columns). -/
structure LabelRow where
  customer_id : ℕ
  offer_id : ℕ
  label : ℕ
deriving DecidableEq, Repr

/-- The labelling query of `build_training_set` (src/train_ranker.py lines
44-58): impressions shown up to the reference date, LEFT JOINed to
redemptions of the same (customer, offer) within the attribution window;
each matching redemption yields a row labelled 1, an unmatched impression a
single row labelled 0. -/
def labelImpressions (imps : List Impression) (reds : List Redemption)
    (ref : ℚ) : List LabelRow :=
  (imps.filter (fun i => decide (i.shown_timestamp ≤ ref))).flatMap fun i =>
    let hits := reds.filter (fun r =>
      r.customer_id == i.customer_id && r.offer_id == i.offer_id &&
      decide (i.shown_timestamp ≤ r.redeemed_timestamp) &&
      decide (r.redeemed_timestamp
        ≤ i.shown_timestamp + (REDEMPTION_WINDOW_DAYS : ℚ)))
    if hits.isEmpty then
      [{ customer_id := i.customer_id, offer_id := i.offer_id, label := 0 }]
    else hits.map (fun _ =>
      { customer_id := i.customer_id, offer_id := i.offer_id, label := 1 })

/-- pandas `drop_duplicates(subset=["customer_id", "offer_id", "label"])`
(line 61): keep the first row of each key. -/
def dropDuplicates (rows : List LabelRow) : List LabelRow :=
  rows.foldl (fun acc r => if acc.contains r then acc else acc ++ [r]) []

/-- Steps 1-2 of `build_training_set` (src/train_ranker.py lines 44-83):
label, deduplicate, split into positives and negatives, downsample
negatives to `NEGATIVE_SAMPLE_RATIO` per positive, concatenate, shuffle.
The seeded `DataFrame.sample` draws are abstracted: `sampleFn l n` draws n
rows of l, `shuffleFn` permutes a list. -/
def training_rows (imps : List Impression) (reds : List Redemption) (ref : ℚ)
    (sampleFn : List LabelRow → ℕ → List LabelRow)
    (shuffleFn : List LabelRow → List LabelRow) : List LabelRow :=
  let labeled := dropDuplicates (labelImpressions imps reds ref)
  let positives := labeled.filter (fun r => r.label == 1)
  let negatives := labeled.filter (fun r => r.label == 0)
  let nneg := min negatives.length (positives.length * NEGATIVE_SAMPLE_RATIO)
  let negsampled := if 0 < nneg then sampleFn negatives nneg else negatives
  shuffleFn (positives ++ negsampled)

/-- `train_ranker` (src/train_ranker.py lines 137-155) around the
empty-training-set guard: with no training rows it returns the null model
and empty metrics `(None, {})` without raising; otherwise the feature join
and the sklearn/LightGBM fit-and-select, abstracted as `trainFn`, run. -/
def train_ranker {μ : Type} (imps : List Impression) (reds : List Redemption)
    (ref : ℚ) (sampleFn : List LabelRow → ℕ → List LabelRow)
    (shuffleFn : List LabelRow → List LabelRow)
    (trainFn : List LabelRow → μ × List (String × ℚ)) :
    Option μ × List (String × ℚ) :=
  let X := training_rows imps reds ref sampleFn shuffleFn
  if X.isEmpty then (none, [])
  else (some (trainFn X).1, (trainFn X).2)

/- ------------------------------------------------------------------ -/
/- Offline evaluation: src/evaluate.py                                 -/
/- ------------------------------------------------------------------ -/

/-- A `redemptions` row as the evaluator reads it:
`DATE(redeemed_timestamp)` as an integer day number. -/
structure RedemptionDay where
  customer_id : ℕ
  offer_id : ℕ
  day : ℤ
deriving DecidableEq, Repr

/-- `SELECT DISTINCT customer_id, offer_id FROM redemptions WHERE
DATE(redeemed_timestamp) BETWEEN :rd AND DATE(:rd, '+7 days')`
(src/evaluate.py lines 59-63). -/
def truthForward (reds : List RedemptionDay) (rd : ℤ) : List (ℕ × ℕ) :=
  ((reds.filter (fun r =>
      decide (rd ≤ r.day) &&
      decide (r.day ≤ rd + (REDEMPTION_WINDOW_DAYS : ℤ)))).map
    (fun r => (r.customer_id, r.offer_id))).dedup

/-- The 30-day lookback query (src/evaluate.py lines 71-75). -/
def truthBackward (reds : List RedemptionDay) (rd : ℤ) : List (ℕ × ℕ) :=
  ((reds.filter (fun r =>
      decide (rd - 30 ≤ r.day) && decide (r.day ≤ rd))).map
    (fun r => (r.customer_id, r.offer_id))).dedup

/-- The ground-truth selection of `compute_offline_metrics`
(src/evaluate.py lines 59-75): the forward-window distinct pairs, replaced
by the backward window when fewer than 50 records. -/
def ground_truth (reds : List RedemptionDay) (rd : ℤ) : List (ℕ × ℕ) :=
  if (truthForward reds rd).length < 50 then truthBackward reds rd
  else truthForward reds rd

/-- Abstract "method=first" rank of `x` over a finite set `s` and a strict
relation `R`: one plus the number of members of `s` beating `x`.  `rank`
restricted to a customer group is an instance of it. -/
def rankOf {ι : Type} (s : Finset ι) (R : ι → ι → Prop) [DecidableRel R] (x : ι) : ℕ :=
  (s.filter (fun y => R y x)).card + 1

/- ------------------------------------------------------------------ -/
/- Theorems                                                            -/
/- ------------------------------------------------------------------ -/

theorem claimed_append (acc acc' : CandAcc) (oid : ℕ) :
    claimed (acc ++ acc') oid = (claimed acc oid || claimed acc' oid) := by
  simp [claimed, List.any_append]

theorem claimed_iff (acc : CandAcc) (oid : ℕ) :
    claimed acc oid = true ↔ oid ∈ acc.map Prod.fst := by
  simp only [claimed, List.any_eq_true, List.mem_map, beq_iff_eq]

theorem claimed_eq_false_iff (acc : CandAcc) (oid : ℕ) :
    claimed acc oid = false ↔ oid ∉ acc.map Prod.fst := by
  rw [Bool.eq_false_iff]
  exact not_congr (claimed_iff acc oid)

theorem addAll_spec (tag : String) (ok : ℕ → Bool) (props : List ℕ)
    (acc : CandAcc) :
    ∃ t, addAll tag ok props acc = acc ++ t ∧
      ∀ e ∈ t, e.2 = tag ∧ ok e.1 = true ∧ claimed acc e.1 = false := by
  induction props generalizing acc with
  | nil => exact ⟨[], by simp [addAll]⟩
  | cons o rest ih =>
    rw [addAll]
    by_cases hc : (!claimed acc o && ok o) = true
    · rw [if_pos hc]
      obtain ⟨t, ht, hprop⟩ := ih (acc ++ [(o, tag)])
      simp only [Bool.and_eq_true, Bool.not_eq_true'] at hc
      refine ⟨(o, tag) :: t, by simpa using ht, ?_⟩
      intro e he
      rcases List.mem_cons.mp he with rfl | he
      · exact ⟨rfl, hc.2, hc.1⟩
      · obtain ⟨h1, h2, h3⟩ := hprop e he
        rw [claimed_append, Bool.or_eq_false_iff] at h3
        exact ⟨h1, h2, h3.1⟩
    · rw [if_neg hc]
      exact ih acc

theorem addUpTo_spec (tag : String) (ok : ℕ → Bool) (props : List ℕ) :
    ∀ (budget : ℕ) (acc : CandAcc),
    ∃ t, addUpTo tag ok budget props acc = acc ++ t ∧
      ∀ e ∈ t, e.2 = tag ∧ ok e.1 = true ∧ claimed acc e.1 = false := by
  induction props with
  | nil => intro budget acc; exact ⟨[], by simp [addUpTo]⟩
  | cons o rest ih =>
    intro budget acc
    match budget with
    | 0 => exact ⟨[], by simp [addUpTo]⟩
    | b + 1 =>
      rw [addUpTo]
      by_cases hc : (!claimed acc o && ok o) = true
      · rw [if_pos hc]
        obtain ⟨t, ht, hprop⟩ := ih b (acc ++ [(o, tag)])
        simp only [Bool.and_eq_true, Bool.not_eq_true'] at hc
        refine ⟨(o, tag) :: t, by simpa using ht, ?_⟩
        intro e he
        rcases List.mem_cons.mp he with rfl | he
        · exact ⟨rfl, hc.2, hc.1⟩
        · obtain ⟨h1, h2, h3⟩ := hprop e he
          rw [claimed_append, Bool.or_eq_false_iff] at h3
          exact ⟨h1, h2, h3.1⟩
      · rw [if_neg hc]
        exact ih (b + 1) acc

/-- Every strategy pass only appends entries carrying its own tag, for offers
not yet claimed and eligible for the customer. -/
theorem strategySteps_spec (db : CandDb) (rd : ℤ) (cust : Customer) :
    ∀ s ∈ strategySteps db rd cust, ∀ acc,
      ∃ t, s.2 acc = acc ++ t ∧
        ∀ e ∈ t, e.2 = s.1 ∧ claimed acc e.1 = false ∧
          is_eligible (activeOffers db.offers rd) e.1 cust = true := by
  intro s hs acc
  simp only [strategySteps, List.mem_cons, List.not_mem_nil, or_false] at hs
  rcases hs with rfl | rfl | rfl | rfl | rfl | rfl | rfl
  · obtain ⟨t, ht, hp⟩ := addAll_spec _ _ _ acc
    exact ⟨t, ht, fun e he => ⟨(hp e he).1, (hp e he).2.2, (hp e he).2.1⟩⟩
  · obtain ⟨t, ht, hp⟩ := addUpTo_spec _ _ _ _ acc
    refine ⟨t, ht, fun e he => ⟨(hp e he).1, (hp e he).2.2, ?_⟩⟩
    have := (hp e he).2.1
    rw [Bool.and_eq_true] at this
    exact this.2
  · obtain ⟨t, ht, hp⟩ := addUpTo_spec _ _ _ _ acc
    exact ⟨t, ht, fun e he => ⟨(hp e he).1, (hp e he).2.2, (hp e he).2.1⟩⟩
  · obtain ⟨t, ht, hp⟩ := addAll_spec _ _ _ acc
    exact ⟨t, ht, fun e he => ⟨(hp e he).1, (hp e he).2.2, (hp e he).2.1⟩⟩
  · match hr : db.tier3_ratio cust.customer_id with
    | some r =>
      by_cases hlt : r < mkRat 3 10
      · obtain ⟨t, ht, hp⟩ := addUpTo_spec "tier_upgrade"
          (fun oid => is_eligible (activeOffers db.offers rd) oid cust)
          (active_offer_ids (activeOffers db.offers rd))
          (CANDIDATE_STRATEGY_LIMITS "tier_upgrade") acc
        refine ⟨t, ?_, fun e he => ⟨(hp e he).1, (hp e he).2.2, (hp e he).2.1⟩⟩
        simpa [hr, hlt] using ht
      · exact ⟨[], by simp [hr, hlt], by simp⟩
    | none => exact ⟨[], by simp [hr], by simp⟩
  · obtain ⟨t, ht, hp⟩ := addUpTo_spec _ _ _ _ acc
    exact ⟨t, ht, fun e he => ⟨(hp e he).1, (hp e he).2.2, (hp e he).2.1⟩⟩
  · obtain ⟨t, ht, hp⟩ := addUpTo_spec _ _ _ _ acc
    exact ⟨t, ht, fun e he => ⟨(hp e he).1, (hp e he).2.2, (hp e he).2.1⟩⟩

/-- Folding strategy passes: every entry of the result was in the initial
dict or was appended by one of the passes. -/
theorem foldl_steps_mem {P : ℕ × String → Prop}
    (steps : List (String × (CandAcc → CandAcc)))
    (hstep : ∀ s ∈ steps, ∀ acc e, e ∈ s.2 acc → e ∈ acc ∨ P e) :
    ∀ acc e, e ∈ steps.foldl (fun a s => s.2 a) acc → e ∈ acc ∨ P e := by
  induction steps with
  | nil => intro acc e he; exact Or.inl he
  | cons s rest ih =>
    intro acc e he
    rw [List.foldl_cons] at he
    rcases ih (fun s' hs' => hstep s' (List.mem_cons_of_mem _ hs')) (s.2 acc) e he
      with h | h
    · exact hstep s (List.mem_cons_self _ _) acc e h
    · exact Or.inr h

theorem addAll_keys_nodup (tag : String) (ok : ℕ → Bool) (props : List ℕ) :
    ∀ acc : CandAcc, (acc.map Prod.fst).Nodup →
      ((addAll tag ok props acc).map Prod.fst).Nodup := by
  induction props with
  | nil => intro acc h; simpa [addAll] using h
  | cons o rest ih =>
    intro acc hacc
    rw [addAll]
    by_cases hc : (!claimed acc o && ok o) = true
    · rw [if_pos hc]
      refine ih _ ?_
      simp only [Bool.and_eq_true, Bool.not_eq_true'] at hc
      have ho : o ∉ acc.map Prod.fst := (claimed_eq_false_iff acc o).mp hc.1
      rw [List.map_append, List.nodup_append]
      refine ⟨hacc, by simp, ?_⟩
      intro a ha hb
      simp only [List.map_cons, List.map_nil, List.mem_singleton] at hb
      subst hb
      exact ho ha
    · rw [if_neg hc]; exact ih acc hacc

theorem addUpTo_keys_nodup (tag : String) (ok : ℕ → Bool) (props : List ℕ) :
    ∀ (budget : ℕ) (acc : CandAcc), (acc.map Prod.fst).Nodup →
      ((addUpTo tag ok budget props acc).map Prod.fst).Nodup := by
  induction props with
  | nil => intro budget acc h; simpa [addUpTo] using h
  | cons o rest ih =>
    intro budget acc hacc
    match budget with
    | 0 => simpa [addUpTo] using hacc
    | b + 1 =>
      rw [addUpTo]
      by_cases hc : (!claimed acc o && ok o) = true
      · rw [if_pos hc]
        refine ih b _ ?_
        simp only [Bool.and_eq_true, Bool.not_eq_true'] at hc
        have ho : o ∉ acc.map Prod.fst := (claimed_eq_false_iff acc o).mp hc.1
        rw [List.map_append, List.nodup_append]
        refine ⟨hacc, by simp, ?_⟩
        intro a ha hb
        simp only [List.map_cons, List.map_nil, List.mem_singleton] at hb
        subst hb
        exact ho ha
      · rw [if_neg hc]; exact ih (b + 1) acc hacc

/-- Every strategy pass preserves distinctness of the claimed offer ids. -/
theorem strategySteps_keys_nodup (db : CandDb) (rd : ℤ) (cust : Customer) :
    ∀ s ∈ strategySteps db rd cust, ∀ acc : CandAcc,
      (acc.map Prod.fst).Nodup → ((s.2 acc).map Prod.fst).Nodup := by
  intro s hs acc hacc
  simp only [strategySteps, List.mem_cons, List.not_mem_nil, or_false] at hs
  rcases hs with rfl | rfl | rfl | rfl | rfl | rfl | rfl
  · exact addAll_keys_nodup _ _ _ acc hacc
  · exact addUpTo_keys_nodup _ _ _ _ acc hacc
  · exact addUpTo_keys_nodup _ _ _ _ acc hacc
  · exact addAll_keys_nodup _ _ _ acc hacc
  · match hr : db.tier3_ratio cust.customer_id with
    | some r =>
      by_cases hlt : r < mkRat 3 10
      · simpa [hr, hlt] using addUpTo_keys_nodup "tier_upgrade"
          (fun oid => is_eligible (activeOffers db.offers rd) oid cust)
          (active_offer_ids (activeOffers db.offers rd))
          (CANDIDATE_STRATEGY_LIMITS "tier_upgrade") acc hacc
      · simpa [hr, hlt] using hacc
    | none => simpa [hr] using hacc
  · exact addUpTo_keys_nodup _ _ _ _ acc hacc
  · exact addUpTo_keys_nodup _ _ _ _ acc hacc

theorem foldl_steps_keys_nodup (steps : List (String × (CandAcc → CandAcc)))
    (hstep : ∀ s ∈ steps, ∀ acc : CandAcc,
      (acc.map Prod.fst).Nodup → ((s.2 acc).map Prod.fst).Nodup) :
    ∀ acc : CandAcc, (acc.map Prod.fst).Nodup →
      ((steps.foldl (fun a s => s.2 a) acc).map Prod.fst).Nodup := by
  induction steps with
  | nil => intro acc h; exact h
  | cons s rest ih =>
    intro acc hacc
    rw [List.foldl_cons]
    exact ih (fun s' hs' => hstep s' (List.mem_cons_of_mem _ hs')) (s.2 acc)
      (hstep s (List.mem_cons_self _ _) acc hacc)

theorem scopePasses_iff (s : Option (List String)) (v : String) :
    scopePasses s v = true ↔ (s = none ∨ ∃ l, s = some l ∧ v ∈ l) := by
  cases s with
  | none => simp [scopePasses]
  | some l => simp [scopePasses, List.contains_iff_exists_mem_beq]

/-- The Bool eligibility check of the source agrees with the spec's
four-dimension conjunction. -/
theorem is_eligible_iff (active : List CandOffer) (cust : Customer) (oid : ℕ) :
    is_eligible active oid cust = true ↔ EligibleConj active cust oid := by
  unfold is_eligible EligibleConj
  simp only [Bool.and_eq_true, scopePasses_iff]
  tauto

theorem insert_rows_mem (db : CandDb) (rd : ℤ) (r : CandRow) :
    r ∈ insert_rows db rd ↔
      ∃ cust ∈ db.customers, ∃ e ∈ customer_candidates db rd cust,
        r = { customer_id := cust.customer_id, offer_id := e.1, strategy := e.2,
              run_date := rd } := by
  simp only [insert_rows, List.mem_flatMap, List.mem_map]
  constructor
  · rintro ⟨cust, hcust, e, he, rfl⟩; exact ⟨cust, hcust, e, he, rfl⟩
  · rintro ⟨cust, hcust, e, he, rfl⟩; exact ⟨cust, hcust, e, he, rfl⟩

theorem poolRowsFor_generate (db : CandDb) (rd : ℤ) :
    poolRowsFor (generate_candidate_pool db rd) rd =
      if (activeOffers db.offers rd).isEmpty then [] else insert_rows db rd := by
  unfold generate_candidate_pool poolRowsFor
  by_cases h : (activeOffers db.offers rd).isEmpty
  · simp only [h, if_true]
    rw [List.filter_filter]
    apply List.filter_eq_nil_iff.mpr
    intro r _
    simp
  · simp only [h, Bool.false_eq_true, if_false, List.filter_append]
    rw [List.filter_filter]
    have h1 : (db.candidate_pool.filter
        fun r => (r.run_date == rd) && !(r.run_date == rd)) = [] := by
      apply List.filter_eq_nil_iff.mpr; intro r _; simp
    have h2 : ((insert_rows db rd).filter fun r => r.run_date == rd)
        = insert_rows db rd := by
      apply List.filter_eq_self.mpr
      intro r hr
      rw [insert_rows_mem] at hr
      obtain ⟨cust, _, e, _, rfl⟩ := hr
      exact beq_self_eq_true rd
    rw [h1, h2, List.nil_append]

/-- Every candidate selected for a customer is eligible for that customer. -/
theorem customer_candidates_eligible (db : CandDb) (rd : ℤ) (cust : Customer) :
    ∀ e ∈ customer_candidates db rd cust,
      is_eligible (activeOffers db.offers rd) e.1 cust = true := by
  intro e he
  rw [customer_candidates] at he
  have he' := List.mem_of_mem_take he
  have hstep : ∀ s ∈ strategySteps db rd cust, ∀ (acc : CandAcc) e,
      e ∈ s.2 acc → e ∈ acc ∨
        is_eligible (activeOffers db.offers rd) e.1 cust = true := by
    intro s hs acc e' he'
    obtain ⟨t, ht, hp⟩ := strategySteps_spec db rd cust s hs acc
    rw [ht, List.mem_append] at he'
    rcases he' with h | h
    · exact Or.inl h
    · exact Or.inr (hp e' h).2.2
  rcases foldl_steps_mem _ hstep [] e he' with h | h
  · exact absurd h (List.not_mem_nil e)
  · exact h

theorem customer_candidates_keys_nodup (db : CandDb) (rd : ℤ) (cust : Customer) :
    ((customer_candidates db rd cust).map Prod.fst).Nodup := by
  rw [customer_candidates, List.map_take]
  exact (foldl_steps_keys_nodup _ (strategySteps_keys_nodup db rd cust) []
    List.nodup_nil).sublist (List.take_sublist _ _)

/-- C3 counterexample: the claim says volume-bonus offers get a fixed
heuristic discount depth independent of `discount_value`; in the code the
depth of a volume-bonus offer is `discount_value / 100`, so two volume-bonus
offers that differ only in `discount_value` get different depths. -/
theorem c3_counterexample :
    discount_depth .volume_bonus 20 50 = 1/5 ∧
    discount_depth .volume_bonus 10 50 = 1/10 ∧
    discount_depth .volume_bonus 20 50 ≠ discount_depth .volume_bonus 10 50 := by
  refine ⟨by norm_num [discount_depth], by norm_num [discount_depth], ?_⟩
  norm_num [discount_depth]

/-- C3 (amended): the tagged-variant discount-depth table as implemented:
percentage and volume-bonus map to `value/100`, fixed-amount to
`min 1 (value / max price 0.01)`, and buy-X-get-Y, bundle and free-gift to
the constants 0.50, 0.30 and 0.20 (independent of `discount_value`); the
interaction-feature query reproduces the offer-feature formula exactly. -/
theorem c3_discount_depth_table (v v' p : ℚ) :
    (∀ t, interaction_discount_depth t v p = discount_depth t v p) ∧
    discount_depth .percentage v p = v / 100 ∧
    discount_depth .volume_bonus v p = v / 100 ∧
    discount_depth .fixed_amount v p = min 1 (v / max p (1/100)) ∧
    discount_depth .buy_x_get_y v p = 1/2 ∧
    discount_depth .bundle v p = 3/10 ∧
    discount_depth .free_gift v p = 1/5 ∧
    discount_depth .buy_x_get_y v p = discount_depth .buy_x_get_y v' p ∧
    discount_depth .bundle v p = discount_depth .bundle v' p ∧
    discount_depth .free_gift v p = discount_depth .free_gift v' p := by
  refine ⟨fun t => ?_, rfl, rfl, rfl, rfl, rfl, rfl, rfl, rfl, rfl⟩
  cases t <;> rfl

/-- C4 counterexample: with no precondition on `discount_value`, the offer
feature invariant fails — a percentage offer with `discount_value = 150`
produces `discount_depth = 1.5 > 1`. -/
theorem c4_counterexample :
    ∃ r ∈ build_offer_features
      [{ offer_id := 1, offer_type := .percentage, discount_value := 150,
         tier1_price := 50, margin := none, end_date := 10 }] 0,
      1 < r.discount_depth := by
  refine ⟨_, List.mem_map_of_mem _ (List.mem_singleton.mpr rfl), ?_⟩
  norm_num [discount_depth]

/-- C4 (amended): for every row produced by `build_offer_features`,
`days_until_expiry ≥ 0` holds unconditionally, and
`0 ≤ discount_depth ≤ 1` holds provided each offer's `discount_value` lies
in `[0, 100]` for percentage and volume-bonus offers and is nonnegative for
fixed-amount offers. -/
theorem c4_offer_feature_invariant (offers : List OfferRec) (ref : ℤ)
    (hv : ∀ o ∈ offers, discountValueInRange o.offer_type o.discount_value) :
    ∀ r ∈ build_offer_features offers ref,
      0 ≤ r.discount_depth ∧ r.discount_depth ≤ 1 ∧ 0 ≤ r.days_until_expiry := by
  intro r hr
  rw [build_offer_features, List.mem_map] at hr
  obtain ⟨o, ho, rfl⟩ := hr
  refine ⟨?_, ?_, le_max_left 0 _⟩ <;>
  · have hvo := hv o ho
    cases h : o.offer_type <;>
      simp only [discount_depth] <;>
      rw [h] at hvo <;>
      simp only [discountValueInRange] at hvo
    case percentage => linarith [hvo.1, hvo.2]
    case fixed_amount => first
      | exact le_min (by norm_num)
          (div_nonneg hvo (le_trans (by norm_num) (le_max_right o.tier1_price (1/100))))
      | exact min_le_left _ _
    case buy_x_get_y => norm_num
    case volume_bonus => linarith [hvo.1, hvo.2]
    case bundle => norm_num
    case free_gift => norm_num

/-- Witness for C4 (amended) at a concrete offer list. -/
theorem c4_offer_feature_invariant_witness :
    ((build_offer_features sampleOfferRecs 4).all
      (fun r => decide (0 ≤ r.discount_depth) && decide (r.discount_depth ≤ 1)
        && decide (0 ≤ r.days_until_expiry))) = true := by
  rw [List.all_eq_true]
  intro r hr
  have h := c4_offer_feature_invariant sampleOfferRecs 4
    (by intro o ho; fin_cases ho <;> norm_num [discountValueInRange]) r hr
  simp only [Bool.and_eq_true, decide_eq_true_eq]
  exact ⟨⟨h.1, h.2.1⟩, h.2.2⟩

/-- C1: for every run date with at least one active offer, every row written
to `candidate_pool` satisfies the four-dimension eligibility conjunction
(store, business-type, business-subtype, loyalty-tier scope: null scope or
membership) for its customer, and if any dimension fails for a customer and
offer, no row for that (customer, offer) pair is written. -/
theorem c1_rows_eligible (db : CandDb) (rd : ℤ)
    (hactive : activeOffers db.offers rd ≠ [])
    (hids : (db.customers.map Customer.customer_id).Nodup) :
    (∀ row ∈ poolRowsFor (generate_candidate_pool db rd) rd,
      ∃ cust ∈ db.customers, row.customer_id = cust.customer_id ∧
        EligibleConj (activeOffers db.offers rd) cust row.offer_id) ∧
    (∀ cust ∈ db.customers, ∀ oid : ℕ,
      ¬ EligibleConj (activeOffers db.offers rd) cust oid →
        ∀ row ∈ poolRowsFor (generate_candidate_pool db rd) rd,
          ¬(row.customer_id = cust.customer_id ∧ row.offer_id = oid)) := by
  have hrows : poolRowsFor (generate_candidate_pool db rd) rd = insert_rows db rd := by
    rw [poolRowsFor_generate, if_neg]
    simp only [List.isEmpty_iff]
    exact fun h => hactive h
  have hmain : ∀ row ∈ poolRowsFor (generate_candidate_pool db rd) rd,
      ∃ cust ∈ db.customers, row.customer_id = cust.customer_id ∧
        EligibleConj (activeOffers db.offers rd) cust row.offer_id := by
    intro row hrow
    rw [hrows, insert_rows_mem] at hrow
    obtain ⟨cust, hcust, e, he, rfl⟩ := hrow
    exact ⟨cust, hcust, rfl,
      (is_eligible_iff _ _ _).mp (customer_candidates_eligible db rd cust e he)⟩
  refine ⟨hmain, ?_⟩
  rintro cust hcust oid hnot row hrow ⟨hcid, hoid⟩
  obtain ⟨cust', hcust', hcid', helig⟩ := hmain row hrow
  have heq : cust' = cust :=
    List.inj_on_of_nodup_map hids hcust' hcust (by rw [← hcid']; exact hcid)
  subst heq
  subst hoid
  exact hnot helig

/-- Witness for C1 at the sample database: the pool holds exactly the
eligible customer's row, and the ineligible customer gets none. -/
theorem c1_rows_eligible_witness :
    poolRowsFor (generate_candidate_pool sampleDb 5) 5
      = [{ customer_id := 11, offer_id := 1,
           strategy := "category_affinity", run_date := 5 }] ∧
    is_eligible (activeOffers sampleDb.offers 5) 1 sampleCustomer = true ∧
    is_eligible (activeOffers sampleDb.offers 5) 1 sampleCustomer2 = false := by
  have _h := c1_rows_eligible sampleDb 5 (by decide) (by decide)
  exact ⟨by decide, by decide, by decide⟩

/-- C2: for every run date and customer, no (customer, offer) pair appears
twice in `candidate_pool`, the strategy passes run in the fixed order
category_affinity, business_type_popular, repeat_purchase, high_margin,
tier_upgrade, cross_sell, own_brand_switch, and each pass only appends
entries carrying its own tag for offers no earlier pass had claimed —
so the stored tag is the first strategy in that order to claim the offer,
and a later strategy never overwrites an earlier claim. -/
theorem c2_first_claim_wins (db : CandDb) (rd : ℤ)
    (hids : (db.customers.map Customer.customer_id).Nodup) :
    (∀ cust : Customer,
      ((customer_candidates db rd cust).map Prod.fst).Nodup) ∧
    (∀ cust : Customer, (strategySteps db rd cust).map Prod.fst =
      ["category_affinity", "business_type_popular", "repeat_purchase",
       "high_margin", "tier_upgrade", "cross_sell", "own_brand_switch"]) ∧
    (∀ cust : Customer, ∀ s ∈ strategySteps db rd cust, ∀ acc : CandAcc,
      ∃ t, s.2 acc = acc ++ t ∧
        ∀ e ∈ t, e.2 = s.1 ∧ claimed acc e.1 = false) ∧
    ((poolRowsFor (generate_candidate_pool db rd) rd).map
      (fun r => (r.customer_id, r.offer_id))).Nodup := by
  refine ⟨fun cust => customer_candidates_keys_nodup db rd cust,
    fun cust => rfl, ?_, ?_⟩
  · intro cust s hs acc
    obtain ⟨t, ht, hp⟩ := strategySteps_spec db rd cust s hs acc
    exact ⟨t, ht, fun e he => ⟨(hp e he).1, (hp e he).2.1⟩⟩
  · rw [poolRowsFor_generate]
    by_cases h : (activeOffers db.offers rd).isEmpty
    · simp [h]
    · simp only [h, Bool.false_eq_true, if_false]
      rw [insert_rows, List.map_flatMap]
      rw [List.nodup_flatMap]
      constructor
      · intro cust _
        rw [List.map_map]
        have : ((fun r : CandRow => (r.customer_id, r.offer_id)) ∘ fun e : ℕ × String =>
            ({ customer_id := cust.customer_id, offer_id := e.1, strategy := e.2,
               run_date := rd } : CandRow)) =
            (fun oid => (cust.customer_id, oid)) ∘ Prod.fst := by
          funext e; rfl
        rw [this, ← List.map_map]
        refine List.Nodup.map ?_ (customer_candidates_keys_nodup db rd cust)
        intro a b hab
        simpa using hab
      · have hpw : db.customers.Pairwise
            (fun a b => a.customer_id ≠ b.customer_id) := by
          rw [← List.pairwise_map (f := Customer.customer_id)]
          exact hids
        refine hpw.imp ?_
        intro a b hab
        intro x hxa hxb
        simp only [Function.onFun, List.map_map, List.mem_map, Function.comp]
          at hxa hxb
        obtain ⟨ea, _, rfl⟩ := hxa
        obtain ⟨eb, _, hx⟩ := hxb
        exact hab (congrArg Prod.fst hx).symm

/-- Witness for C2 at the sample database. -/
theorem c2_first_claim_wins_witness :
    (strategySteps sampleDb 5 sampleCustomer).map Prod.fst
      = ["category_affinity", "business_type_popular", "repeat_purchase",
         "high_margin", "tier_upgrade", "cross_sell", "own_brand_switch"] ∧
    ((customer_candidates sampleDb 5 sampleCustomer).map Prod.fst).Nodup ∧
    ((poolRowsFor (generate_candidate_pool sampleDb 5) 5).map
      (fun r => (r.customer_id, r.offer_id))).Nodup :=
  ⟨(c2_first_claim_wins sampleDb 5 (by decide)).2.1 sampleCustomer,
   (c2_first_claim_wins sampleDb 5 (by decide)).1 sampleCustomer,
   (c2_first_claim_wins sampleDb 5 (by decide)).2.2.2⟩

/-- `generate_candidate_pool` leaves every field but `candidate_pool`
untouched, so the rows a second run would insert are the same. -/
theorem insert_rows_generate (db : CandDb) (rd rd' : ℤ) :
    insert_rows (generate_candidate_pool db rd) rd' = insert_rows db rd' := by
  cases db
  unfold generate_candidate_pool
  dsimp only
  split <;> rfl

theorem generate_offers_eq (db : CandDb) (rd : ℤ) :
    (generate_candidate_pool db rd).offers = db.offers := by
  cases db
  unfold generate_candidate_pool
  dsimp only
  split <;> rfl

/-- C5: running `generate_candidate_pool` twice with the same run date on the
same underlying data leaves the same `candidate_pool` row count for that run
date as running it once (delete-before-insert idempotence). -/
theorem c5_idempotent (db : CandDb) (rd : ℤ) :
    (poolRowsFor (generate_candidate_pool (generate_candidate_pool db rd) rd) rd).length
      = (poolRowsFor (generate_candidate_pool db rd) rd).length := by
  rw [poolRowsFor_generate, poolRowsFor_generate, generate_offers_eq,
    insert_rows_generate]

section RankOrder

variable {ι : Type} (s : Finset ι) (R : ι → ι → Prop) [DecidableRel R]

theorem rankOf_lt_of_rel (htrans : ∀ x y z, R x y → R y z → R x z)
    (hirr : ∀ x, ¬ R x x) {x y : ι} (hx : x ∈ s) (hxy : R x y) :
    rankOf s R x < rankOf s R y := by
  unfold rankOf
  have hsub : s.filter (fun z => R z x) ⊆ s.filter (fun z => R z y) := by
    intro z hz
    rw [Finset.mem_filter] at hz ⊢
    exact ⟨hz.1, htrans z x y hz.2 hxy⟩
  have hlt : (s.filter (fun z => R z x)).card < (s.filter (fun z => R z y)).card := by
    apply Finset.card_lt_card
    rw [Finset.ssubset_iff_of_subset hsub]
    refine ⟨x, Finset.mem_filter.mpr ⟨hx, hxy⟩, fun hmem => ?_⟩
    exact hirr x (Finset.mem_filter.mp hmem).2
  omega

theorem rankOf_lt_iff (htrans : ∀ x y z, R x y → R y z → R x z)
    (hirr : ∀ x, ¬ R x x)
    (htri : ∀ x ∈ s, ∀ y ∈ s, x ≠ y → R x y ∨ R y x)
    {x y : ι} (hx : x ∈ s) (hy : y ∈ s) :
    rankOf s R x < rankOf s R y ↔ R x y := by
  constructor
  · intro hlt
    rcases eq_or_ne x y with rfl | hne
    · exact absurd hlt (lt_irrefl _)
    rcases htri x hx y hy hne with h | h
    · exact h
    · exact absurd hlt (not_lt_of_gt (rankOf_lt_of_rel s R htrans hirr hy h))
  · exact rankOf_lt_of_rel s R htrans hirr hx

theorem rankOf_injOn (htrans : ∀ x y z, R x y → R y z → R x z)
    (hirr : ∀ x, ¬ R x x)
    (htri : ∀ x ∈ s, ∀ y ∈ s, x ≠ y → R x y ∨ R y x) :
    ∀ x ∈ s, ∀ y ∈ s, rankOf s R x = rankOf s R y → x = y := by
  intro x hx y hy hxy
  by_contra hne
  rcases htri x hx y hy hne with h | h
  · exact (ne_of_lt (rankOf_lt_of_rel s R htrans hirr hx h)) hxy
  · exact (ne_of_lt (rankOf_lt_of_rel s R htrans hirr hy h)) hxy.symm

theorem rankOf_image [DecidableEq ι] (htrans : ∀ x y z, R x y → R y z → R x z)
    (hirr : ∀ x, ¬ R x x)
    (htri : ∀ x ∈ s, ∀ y ∈ s, x ≠ y → R x y ∨ R y x) :
    s.image (rankOf s R) = Finset.Icc 1 s.card := by
  have hinj := rankOf_injOn s R htrans hirr htri
  have hsubset : s.image (rankOf s R) ⊆ Finset.Icc 1 s.card := by
    intro r hr
    rw [Finset.mem_image] at hr
    obtain ⟨x, hx, rfl⟩ := hr
    rw [Finset.mem_Icc]
    refine ⟨by unfold rankOf; omega, ?_⟩
    have hss : s.filter (fun y => R y x) ⊆ s.erase x := by
      intro z hz
      rw [Finset.mem_filter] at hz
      rw [Finset.mem_erase]
      exact ⟨fun hzx => hirr x (hzx ▸ hz.2), hz.1⟩
    have hcard := Finset.card_le_card hss
    rw [Finset.card_erase_of_mem hx] at hcard
    have hpos : 0 < s.card := Finset.card_pos.mpr ⟨x, hx⟩
    unfold rankOf
    omega
  apply Finset.eq_of_subset_of_card_le hsubset
  rw [Finset.card_image_of_injOn (fun x hx y hy => hinj x hx y hy)]
  rw [Nat.card_Icc]
  omega

end RankOrder

theorem beats_trans (rows : List ScoredRow) :
    ∀ a b c, beats rows a b → beats rows b c → beats rows a c := by
  rintro a b c ⟨hc1, h1⟩ ⟨hc2, h2⟩
  refine ⟨hc1.trans hc2, ?_⟩
  rcases h1 with h1 | ⟨he1, hi1⟩ <;> rcases h2 with h2 | ⟨he2, hi2⟩
  · exact Or.inl (h2.trans h1)
  · exact Or.inl (he2 ▸ h1)
  · exact Or.inl (he1 ▸ h2)
  · exact Or.inr ⟨he1.trans he2, hi1.trans hi2⟩

theorem beats_irrefl (rows : List ScoredRow) : ∀ a, ¬ beats rows a a := by
  rintro a ⟨-, h | ⟨-, h⟩⟩
  · exact lt_irrefl _ h
  · exact lt_irrefl _ h

theorem beats_total_on_group (rows : List ScoredRow) (c : ℕ) :
    ∀ a ∈ custGroup rows c, ∀ b ∈ custGroup rows c, a ≠ b →
      beats rows a b ∨ beats rows b a := by
  intro a ha b hb hne
  rw [custGroup, Finset.mem_filter] at ha hb
  have hcc : (rows.get a).customer_id = (rows.get b).customer_id := by
    rw [ha.2, hb.2]
  rcases lt_trichotomy (rows.get a).score (rows.get b).score with h | h | h
  · exact Or.inr ⟨hcc.symm, Or.inl h⟩
  · have hab : (a : ℕ) ≠ (b : ℕ) := fun hv => hne (Fin.ext hv)
    rcases lt_or_gt_of_ne hab with hv | hv
    · exact Or.inl ⟨hcc, Or.inr ⟨h, hv⟩⟩
    · exact Or.inr ⟨hcc.symm, Or.inr ⟨h.symm, hv⟩⟩
  · exact Or.inl ⟨hcc, Or.inl h⟩

/-- For a row of a customer's group, the global beat count equals the beat
count within the group, so `rank` is the abstract group rank. -/
theorem rank_eq_rankOf (rows : List ScoredRow) (c : ℕ) {i : Fin rows.length}
    (hi : i ∈ custGroup rows c) :
    rank rows i = rankOf (custGroup rows c) (beats rows) i := by
  rw [custGroup, Finset.mem_filter] at hi
  unfold rank rankOf
  have hset : (Finset.univ.filter (fun j => beats rows j i))
      = ((custGroup rows c).filter (fun y => beats rows y i)) := by
    ext j
    rw [Finset.mem_filter, Finset.mem_filter, custGroup, Finset.mem_filter]
    constructor
    · intro hj
      exact ⟨⟨hj.1, hj.2.1.trans hi.2⟩, hj.2⟩
    · intro hj
      exact ⟨Finset.mem_univ j, hj.2⟩
  rw [hset]

/-- C6: for a run date with a non-empty candidate pool, the recommendations
written by `score_candidates` have, for each customer, exactly
`min TOP_N_RECOMMENDATIONS (group size)` rows (so at most 10 per customer),
rank values that are exactly 1..that minimum with no repeats and no gaps,
and ranks ordered by descending score with ties broken by the original row
order (stable "first" ranking). -/
theorem c6_dense_ranks (cands : List (ℕ × ℕ)) (score : ℕ → ℕ → ℚ)
    (_hpool : cands ≠ []) (c : ℕ) :
    ((score_candidates cands score).filter (fun r => r.customer_id == c)).length
        = min TOP_N_RECOMMENDATIONS (custGroup (scoredRows cands score) c).card ∧
    ((score_candidates cands score).filter (fun r => r.customer_id == c)).length
        ≤ TOP_N_RECOMMENDATIONS ∧
    (((score_candidates cands score).filter
        (fun r => r.customer_id == c)).map RecRow.rank).Nodup ∧
    (((score_candidates cands score).filter
        (fun r => r.customer_id == c)).map RecRow.rank).toFinset
        = Finset.Icc 1
            (min TOP_N_RECOMMENDATIONS (custGroup (scoredRows cands score) c).card) ∧
    (∀ i j : Fin (scoredRows cands score).length,
      i ∈ custGroup (scoredRows cands score) c →
      j ∈ custGroup (scoredRows cands score) c →
      (rank (scoredRows cands score) i < rank (scoredRows cands score) j ↔
        (((scoredRows cands score).get j).score
            < ((scoredRows cands score).get i).score ∨
          (((scoredRows cands score).get i).score
              = ((scoredRows cands score).get j).score ∧ (i : ℕ) < (j : ℕ))))) := by
  have htrans := beats_trans (scoredRows cands score)
  have hirr := beats_irrefl (scoredRows cands score)
  have htri := beats_total_on_group (scoredRows cands score) c
  have hrankeq : ∀ i ∈ custGroup (scoredRows cands score) c,
      rank (scoredRows cands score) i
        = rankOf (custGroup (scoredRows cands score) c)
            (beats (scoredRows cands score)) i :=
    fun i hi => rank_eq_rankOf _ c hi
  -- the rows kept for customer c, as a filtered list of frame positions
  have hfilter :
      (score_candidates cands score).filter (fun r => r.customer_id == c)
        = ((List.finRange (scoredRows cands score).length).filter
            (fun i => ((scoredRows cands score).get i).customer_id == c &&
              decide (rank (scoredRows cands score) i ≤ TOP_N_RECOMMENDATIONS))).map
            (fun i =>
              ({ customer_id := ((scoredRows cands score).get i).customer_id,
                 offer_id := ((scoredRows cands score).get i).offer_id,
                 score := ((scoredRows cands score).get i).score,
                 rank := rank (scoredRows cands score) i } : RecRow)) := by
    rw [score_candidates]
    rw [List.filter_map, List.filter_filter]
    rfl
  have hkeptNodup : ((List.finRange (scoredRows cands score).length).filter
      (fun i => ((scoredRows cands score).get i).customer_id == c &&
        decide (rank (scoredRows cands score) i ≤ TOP_N_RECOMMENDATIONS))).Nodup :=
    (List.nodup_finRange _).filter _
  have hKeq : ((List.finRange (scoredRows cands score).length).filter
      (fun i => ((scoredRows cands score).get i).customer_id == c &&
        decide (rank (scoredRows cands score) i ≤ TOP_N_RECOMMENDATIONS))).toFinset
      = (custGroup (scoredRows cands score) c).filter
          (fun i => rank (scoredRows cands score) i ≤ TOP_N_RECOMMENDATIONS) := by
    ext i
    simp [custGroup, List.mem_filter, Finset.mem_filter, List.mem_finRange]
  have hKsub : ∀ i ∈ (custGroup (scoredRows cands score) c).filter
      (fun i => rank (scoredRows cands score) i ≤ TOP_N_RECOMMENDATIONS),
      i ∈ custGroup (scoredRows cands score) c :=
    fun i hi => (Finset.mem_filter.mp hi).1
  have himg := rankOf_image (custGroup (scoredRows cands score) c)
    (beats (scoredRows cands score)) htrans hirr htri
  have hKimg : ((custGroup (scoredRows cands score) c).filter
        (fun i => rank (scoredRows cands score) i ≤ TOP_N_RECOMMENDATIONS)).image
          (rank (scoredRows cands score))
      = Finset.Icc 1 (min TOP_N_RECOMMENDATIONS
          (custGroup (scoredRows cands score) c).card) := by
    rw [Finset.image_congr (fun i hi => hrankeq i (hKsub i hi))]
    rw [Finset.filter_congr (fun i hi => by rw [hrankeq i hi])]
    ext r
    simp only [Finset.mem_image, Finset.mem_filter, Finset.mem_Icc, le_min_iff]
    constructor
    · rintro ⟨i, ⟨hiG, hile⟩, rfl⟩
      have hmem := himg ▸ Finset.mem_image_of_mem
        (rankOf (custGroup (scoredRows cands score) c)
          (beats (scoredRows cands score))) hiG
      rw [Finset.mem_Icc] at hmem
      exact ⟨hmem.1, hile, hmem.2⟩
    · rintro ⟨h1, h2, h3⟩
      have hr : r ∈ Finset.Icc 1 (custGroup (scoredRows cands score) c).card := by
        rw [Finset.mem_Icc]; exact ⟨h1, h3⟩
      rw [← himg] at hr
      obtain ⟨i, hiG, rfl⟩ := Finset.mem_image.mp hr
      exact ⟨i, ⟨hiG, h2⟩, rfl⟩
  have hKinj : ∀ x ∈ (custGroup (scoredRows cands score) c).filter
      (fun i => rank (scoredRows cands score) i ≤ TOP_N_RECOMMENDATIONS),
      ∀ y ∈ (custGroup (scoredRows cands score) c).filter
        (fun i => rank (scoredRows cands score) i ≤ TOP_N_RECOMMENDATIONS),
      rank (scoredRows cands score) x = rank (scoredRows cands score) y → x = y := by
    intro x hx y hy hxy
    rw [hrankeq x (hKsub x hx), hrankeq y (hKsub y hy)] at hxy
    exact rankOf_injOn _ _ htrans hirr htri x (hKsub x hx) y (hKsub y hy) hxy
  have hKcard : ((custGroup (scoredRows cands score) c).filter
        (fun i => rank (scoredRows cands score) i ≤ TOP_N_RECOMMENDATIONS)).card
      = min TOP_N_RECOMMENDATIONS (custGroup (scoredRows cands score) c).card := by
    rw [← Finset.card_image_of_injOn (fun x hx y hy => hKinj x hx y hy), hKimg,
      Nat.card_Icc]
    exact Nat.add_sub_cancel _ _
  have hlen : ((score_candidates cands score).filter
      (fun r => r.customer_id == c)).length
      = min TOP_N_RECOMMENDATIONS (custGroup (scoredRows cands score) c).card := by
    rw [hfilter, List.length_map, ← List.toFinset_card_of_nodup hkeptNodup, hKeq,
      hKcard]
  have hmapRank : ((score_candidates cands score).filter
      (fun r => r.customer_id == c)).map RecRow.rank
      = ((List.finRange (scoredRows cands score).length).filter
          (fun i => ((scoredRows cands score).get i).customer_id == c &&
            decide (rank (scoredRows cands score) i ≤ TOP_N_RECOMMENDATIONS))).map
          (fun i => rank (scoredRows cands score) i) := by
    rw [hfilter, List.map_map]
    rfl
  have hmemK : ∀ i ∈ (List.finRange (scoredRows cands score).length).filter
      (fun i => ((scoredRows cands score).get i).customer_id == c &&
        decide (rank (scoredRows cands score) i ≤ TOP_N_RECOMMENDATIONS)),
      i ∈ (custGroup (scoredRows cands score) c).filter
        (fun i => rank (scoredRows cands score) i ≤ TOP_N_RECOMMENDATIONS) := by
    intro i hi
    rw [← hKeq, List.mem_toFinset]
    exact hi
  refine ⟨hlen, by rw [hlen]; omega, ?_, ?_, ?_⟩
  · rw [hmapRank]
    refine List.Nodup.map_on ?_ hkeptNodup
    intro x hx y hy hxy
    exact hKinj x (hmemK x hx) y (hmemK y hy) hxy
  · rw [hmapRank]
    have htf : (((List.finRange (scoredRows cands score).length).filter
        (fun i => ((scoredRows cands score).get i).customer_id == c &&
          decide (rank (scoredRows cands score) i ≤ TOP_N_RECOMMENDATIONS))).map
          (fun i => rank (scoredRows cands score) i)).toFinset
        = ((List.finRange (scoredRows cands score).length).filter
            (fun i => ((scoredRows cands score).get i).customer_id == c &&
              decide (rank (scoredRows cands score) i
                ≤ TOP_N_RECOMMENDATIONS))).toFinset.image
            (rank (scoredRows cands score)) := by
      ext r; simp
    rw [htf, hKeq, hKimg]
  · intro i j hi hj
    rw [hrankeq i hi, hrankeq j hj,
      rankOf_lt_iff _ _ htrans hirr htri hi hj]
    unfold beats
    constructor
    · exact fun h => h.2
    · intro h
      refine ⟨?_, h⟩
      rw [custGroup, Finset.mem_filter] at hi hj
      rw [hi.2, hj.2]

/-- Witness for C6 at a concrete two-customer scored pool. -/
theorem c6_dense_ranks_witness :
    (((score_candidates [(1, 5), (1, 6), (2, 5)] (fun _ o => (o : ℚ))).filter
        (fun r => r.customer_id == 1)).length
      = min TOP_N_RECOMMENDATIONS
          (custGroup (scoredRows [(1, 5), (1, 6), (2, 5)]
            (fun _ o => (o : ℚ))) 1).card) ∧
    (((score_candidates [(1, 5), (1, 6), (2, 5)] (fun _ o => (o : ℚ))).filter
        (fun r => r.customer_id == 1)).map RecRow.rank).toFinset
      = Finset.Icc 1 (min TOP_N_RECOMMENDATIONS
          (custGroup (scoredRows [(1, 5), (1, 6), (2, 5)]
            (fun _ o => (o : ℚ))) 1).card) :=
  ⟨(c6_dense_ranks [(1, 5), (1, 6), (2, 5)] (fun _ o => (o : ℚ))
      (by decide) 1).1,
    (c6_dense_ranks [(1, 5), (1, 6), (2, 5)] (fun _ o => (o : ℚ))
      (by decide) 1).2.2.2.1⟩

theorem psiSum_self (p : List ℚ) : psiSum p p = 0 := by
  unfold psiSum
  induction p with
  | nil => simp
  | cons x xs ih =>
    rw [List.zipWith_cons_cons, List.sum_cons, ih]
    simp

theorem compute_psi_self (a : List ℚ) (n : ℕ) : compute_psi a a n = 0 := by
  unfold compute_psi
  split
  · rfl
  · rw [psiSum_self]
    exact max_self 0

theorem compute_psi_nonneg (b c : List ℚ) (n : ℕ) : 0 ≤ compute_psi b c n := by
  unfold compute_psi
  split
  · exact le_refl 0
  · exact le_max_left 0 _

theorem round4_zero : round4 0 = 0 := by
  unfold round4
  norm_num

theorem psiSeverity_zero : psiSeverity 0 = "ok" := by
  unfold psiSeverity
  rw [if_neg, if_neg]
  · rw [PSI_WARN_THRESHOLD]; push_cast; norm_num
  · rw [PSI_ALERT_THRESHOLD]; push_cast; norm_num

/-- C8: for every non-empty array `a`, `compute_psi(a, a)` is exactly 0, and
`compute_psi` is non-negative for all inputs (it is floored at 0). -/
theorem c8_psi_properties (a baseline current : List ℚ) (n : ℕ)
    (_ha : a ≠ []) :
    compute_psi a a n = 0 ∧ 0 ≤ compute_psi baseline current n :=
  ⟨compute_psi_self a n, compute_psi_nonneg baseline current n⟩

/-- Witness for C8 at concrete arrays. -/
theorem c8_psi_properties_witness :
    compute_psi [1, 2, 3] [1, 2, 3] 10 = 0 ∧ 0 ≤ compute_psi [0] [5] 10 :=
  c8_psi_properties [1, 2, 3] [0] [5] 10 (by decide)

/-- C7: when a trained artifact with a train date exists and
`customer_features` is non-empty, `check_drift` loads the same current table
as baseline and current (the baseline load ignores the artifact's date), so
every monitored feature's PSI is exactly 0, every logged severity is "ok",
and the alert list is empty. -/
theorem c7_baseline_ignored (db : DriftDb) (run_date d : String)
    (hart : db.artifact_train_date = some d)
    (hne : db.customer_features ≠ []) :
    (check_drift db run_date).2 = [] ∧
    (check_drift db run_date).1.length = DRIFT_FEATURES.length ∧
    ∀ r ∈ (check_drift db run_date).1, r.psi = 0 ∧ r.severity = "ok" := by
  have hload : ∀ s : String,
      load_feature_snapshot db (some s) = some db.customer_features := by
    intro s
    unfold load_feature_snapshot
    rw [if_neg]
    simp only [List.isEmpty_iff]
    exact hne
  have hentry : ∀ f : String,
      round4 (compute_psi (featureColumn db.customer_features f)
        (featureColumn db.customer_features f) 10) = 0 ∧
      psiSeverity (compute_psi (featureColumn db.customer_features f)
        (featureColumn db.customer_features f) 10) = "ok" := by
    intro f
    rw [compute_psi_self, round4_zero, psiSeverity_zero]
    exact ⟨rfl, rfl⟩
  unfold check_drift
  rw [hart, hload d, hload run_date]
  refine ⟨?_, List.length_map _ _, ?_⟩
  · apply List.filter_eq_nil_iff.mpr
    intro r hr
    rw [List.mem_map] at hr
    obtain ⟨f, _, rfl⟩ := hr
    simp [(hentry f).2]
  · intro r hr
    rw [List.mem_map] at hr
    obtain ⟨f, _, rfl⟩ := hr
    exact hentry f

/-- Witness for C7 at a one-row feature table with a saved artifact. -/
theorem c7_baseline_ignored_witness :
    (check_drift ⟨[fun _ => some 1], some "2026-01-06"⟩ "2026-02-01").2 = [] ∧
    (check_drift ⟨[fun _ => some 1], some "2026-01-06"⟩ "2026-02-01").1.length
      = DRIFT_FEATURES.length :=
  ⟨(c7_baseline_ignored ⟨[fun _ => some 1], some "2026-01-06"⟩ "2026-02-01"
      "2026-01-06" rfl (by simp)).1,
   (c7_baseline_ignored ⟨[fun _ => some 1], some "2026-01-06"⟩ "2026-02-01"
      "2026-01-06" rfl (by simp)).2.1⟩

/-- C9: when the labelled training set built from impressions and
redemptions is empty, `train_ranker` returns the null model and empty
metrics, cleanly (the guard path is a total value, no exception reaches the
caller), for every sampling, shuffling and model-fitting behaviour. -/
theorem c9_empty_training_set {μ : Type} (imps : List Impression)
    (reds : List Redemption) (ref : ℚ)
    (sampleFn : List LabelRow → ℕ → List LabelRow)
    (shuffleFn : List LabelRow → List LabelRow)
    (trainFn : List LabelRow → μ × List (String × ℚ))
    (hshuffle : ∀ l, (shuffleFn l).Perm l)
    (hempty : dropDuplicates (labelImpressions imps reds ref) = []) :
    train_ranker imps reds ref sampleFn shuffleFn trainFn = (none, []) := by
  have hX : training_rows imps reds ref sampleFn shuffleFn = [] := by
    unfold training_rows
    rw [hempty]
    simp only [List.filter_nil, List.length_nil, Nat.zero_mul, Nat.min_self,
      lt_irrefl, if_false, List.nil_append]
    exact (hshuffle []).eq_nil
  unfold train_ranker
  rw [hX]
  rfl

/-- Witness for C9: no impressions at all. -/
theorem c9_empty_training_set_witness :
    train_ranker [] [] 0 (fun l n => l.take n) id
      (fun _ => ((0 : ℕ), [])) = (none, []) :=
  c9_empty_training_set [] [] 0 (fun l n => l.take n) id
    (fun _ => ((0 : ℕ), [])) (fun l => List.Perm.refl l) rfl

/-- C10: `compute_offline_metrics` takes the distinct (customer, offer)
redemptions of the forward window `[run_date, run_date + 7d]`; exactly when
that window yields fewer than 50 records it instead uses the backward
window `[run_date - 30d, run_date]`.  The selected set is duplicate-free and
its membership matches the selected window. -/
theorem c10_ground_truth_window (reds : List RedemptionDay) (rd : ℤ) :
    (ground_truth reds rd).Nodup ∧
    (50 ≤ (truthForward reds rd).length →
      ground_truth reds rd = truthForward reds rd) ∧
    ((truthForward reds rd).length < 50 →
      ground_truth reds rd = truthBackward reds rd) ∧
    (∀ p : ℕ × ℕ, p ∈ truthForward reds rd ↔
      ∃ r ∈ reds, r.customer_id = p.1 ∧ r.offer_id = p.2 ∧
        rd ≤ r.day ∧ r.day ≤ rd + (REDEMPTION_WINDOW_DAYS : ℤ)) ∧
    (∀ p : ℕ × ℕ, p ∈ truthBackward reds rd ↔
      ∃ r ∈ reds, r.customer_id = p.1 ∧ r.offer_id = p.2 ∧
        rd - 30 ≤ r.day ∧ r.day ≤ rd) := by
  refine ⟨?_, ?_, ?_, ?_, ?_⟩
  · unfold ground_truth
    split
    · exact List.nodup_dedup _
    · exact List.nodup_dedup _
  · intro h
    unfold ground_truth
    rw [if_neg (by omega)]
  · intro h
    unfold ground_truth
    rw [if_pos h]
  · intro p
    unfold truthForward
    rw [List.mem_dedup, List.mem_map]
    constructor
    · rintro ⟨r, hr, rfl⟩
      rw [List.mem_filter] at hr
      simp only [Bool.and_eq_true, decide_eq_true_eq] at hr
      exact ⟨r, hr.1, rfl, rfl, hr.2.1, hr.2.2⟩
    · rintro ⟨r, hr, h1, h2, h3, h4⟩
      refine ⟨r, ?_, ?_⟩
      · rw [List.mem_filter]
        simp only [Bool.and_eq_true, decide_eq_true_eq]
        exact ⟨hr, h3, h4⟩
      · rw [h1, h2]
  · intro p
    unfold truthBackward
    rw [List.mem_dedup, List.mem_map]
    constructor
    · rintro ⟨r, hr, rfl⟩
      rw [List.mem_filter] at hr
      simp only [Bool.and_eq_true, decide_eq_true_eq] at hr
      exact ⟨r, hr.1, rfl, rfl, hr.2.1, hr.2.2⟩
    · rintro ⟨r, hr, h1, h2, h3, h4⟩
      refine ⟨r, ?_, ?_⟩
      · rw [List.mem_filter]
        simp only [Bool.and_eq_true, decide_eq_true_eq]
        exact ⟨hr, h3, h4⟩
      · rw [h1, h2]

/-- Witness for C10 at a one-redemption table (forward window too small, so
the backward window is selected). -/
theorem c10_ground_truth_window_witness :
    (truthForward [⟨3, 4, -2⟩] 0).length < 50 ∧
    ground_truth [⟨3, 4, -2⟩] 0 = truthBackward [⟨3, 4, -2⟩] 0 :=
  ⟨by decide,
    (c10_ground_truth_window [⟨3, 4, -2⟩] 0).2.2.1 (by decide)⟩

end RetailOffer
